import Mathlib

/-
Verification of the ETL / alert / insight pipeline of Dashboard.py
(financial dashboard). Columns of a pandas data frame are modelled as
lists of optional rationals, where `none` models a missing value (NaN).
-/

namespace Dashboard

/-- One cell of a data-frame column; `none` models a missing value (NaN). -/
abbrev Val : Type := Option ℚ

/-- A data-frame column: an ordered list of cells. -/
abbrev Col : Type := List Val

/-- Forward fill with a running last-seen value (pandas `ffill`):
each missing cell takes the most recent earlier present value, if any. -/
def ffillAux : Val → Col → Col
  | _, [] => []
  | _, some x :: rest => some x :: ffillAux (some x) rest
  | last, none :: rest => last :: ffillAux last rest

/-- Pandas `Series.ffill` on one column. -/
def ffill (c : Col) : Col := ffillAux none c

/-- Pandas `Series.bfill` on one column: forward fill of the reversal,
reversed back. -/
def bfill (c : Col) : Col := (ffill c.reverse).reverse

/-- The gap-filling step `df.ffill().bfill()` of `load_data`
(Dashboard.py line 77), per column. -/
def fillBoth (c : Col) : Col := bfill (ffill c)

/-- A data frame: a row count (the date index length) together with an
ordered association list of named columns. -/
structure Frame where
  nRows : Nat
  cols : List (String × Col)
deriving DecidableEq

/-- Pandas `DataFrame.empty`: true when either axis has length zero. -/
def Frame.empty (f : Frame) : Bool := decide (f.nRows = 0) || f.cols.isEmpty

/-- Column lookup, `df[name]`; total with default `[]` (the script only
reads columns that its ETL guarantees to exist). -/
def colOf (f : Frame) (n : String) : Col := (f.cols.lookup n).getD []

/-- Column assignment on the underlying association list, `df[n] = c`:
replaces the first column named `n` in place, or appends a new one. -/
def setColList : List (String × Col) → String → Col → List (String × Col)
  | [], n, c => [(n, c)]
  | (k, v) :: rest, n, c =>
    if k = n then (k, c) :: rest else (k, v) :: setColList rest n c

/-- Pandas column assignment `df[n] = c`. -/
def Frame.setCol (f : Frame) (n : String) (c : Col) : Frame :=
  ⟨f.nRows, setColList f.cols n c⟩

/-- The ticker lists of Dashboard.py lines 15-21. -/
def BIG_SEVEN : List String :=
  ["AAPL", "MSFT", "NVDA", "GOOGL", "META", "TSLA", "AMZN"]

/-- The five freely chosen traditional stocks. -/
def CHOSEN_FIVE : List String := ["JPM", "KO", "DIS", "XOM", "PFE"]

/-- The macro tickers. -/
def MACRO_TICKERS : List String := ["^TNX", "MXN=X", "EURUSD=X"]

/-- All stock tickers. -/
def ALL_STOCKS : List String := BIG_SEVEN ++ CHOSEN_FIVE

/-- All downloaded tickers. -/
def ALL_TICKERS : List String := ALL_STOCKS ++ MACRO_TICKERS

/-- The `rename_map` of Dashboard.py lines 53-58, as a function on
column labels. -/
def renameTicker (s : String) : String :=
  if s = "^TNX" then "US_Treasury_10Y"
  else if s = "MXN=X" then "USD_MXN"
  else if s = "EURUSD=X" then "EUR_USD_Exchange"
  else s

/-- The derived column `df[USD_EUR] = 1 / df[EUR_USD_Exchange]`
(Dashboard.py line 66), applied cellwise; a missing cell stays missing. -/
def invCol (c : Col) : Col := c.map (Option.map (fun x => 1 / x))

/-- State of the process-global numpy random generator, abstracted to a
single machine word. -/
abbrev RandState := Nat

/-- A 64-bit linear congruential step standing in for the library
generator's state transition; what matters for the verified claims is
that it is a pure function of the state. -/
def lcg (x : Nat) : Nat :=
  (6364136223846793005 * x + 1442695040888963407) % (2 ^ 64)

/-- Effect of `np.random.seed(n)`: the global state becomes a pure
function of `n`. -/
def npSeed (n : Nat) : RandState := lcg n

/-- One draw of `np.random.normal(0, sigma)`: a bounded pseudo-random
value in `[-sigma, sigma]` together with the advanced generator state.
The exact library bit stream is abstracted; determinism, the scale
parameter and the state threading are preserved. -/
def gauss (sigma : ℚ) (g : RandState) : ℚ × RandState :=
  let g2 := lcg g
  (sigma * (((g2 % (2 ^ 16) : Nat) : ℤ) - 2 ^ 15) / 2 ^ 15, g2)

/-- The vectorized draw `np.random.normal(0, sigma, n)`. -/
def gaussList (sigma : ℚ) : Nat → RandState → List ℚ × RandState
  | 0, g => ([], g)
  | n + 1, g =>
    let p := gauss sigma g
    let q := gaussList sigma n p.2
    (p.1 :: q.1, q.2)

/-- The library function `np.linspace a b n`: `n` evenly spaced points
from `a` to `b` inclusive. -/
def linspace (a b : ℚ) (n : Nat) : List ℚ :=
  match n with
  | 0 => []
  | 1 => [a]
  | _ => (List.range n).map (fun i => a + (b - a) * i / (n - 1))

/-- The synthetic CETES_28 series of Dashboard.py lines 70-74, given the
incoming global generator state `_g` and the date-index length: the code
reseeds with 42, so the incoming state is dead. -/
def cetesSeries (_g : RandState) (len : Nat) : List ℚ :=
  let g1 := npSeed 42
  let noise := (gaussList 0.05 len g1).1
  List.zipWith (fun t e => t + e) (linspace 10.5 11.25 len) noise

/-- Gap filling `df.ffill().bfill()` over a whole frame. -/
def fillFrame (f : Frame) : Frame :=
  ⟨f.nRows, f.cols.map (fun p => (p.1, fillBoth p.2))⟩

/-- Outcome of the raw `yf.download` call: either the transport raised,
or it returned a table (possibly empty). The multi-index flattening of
lines 41-50 is folded into `raw` being the selected close-price frame. -/
inductive FetchResult where
  | raised
  | table (raw : Frame)
deriving DecidableEq

/-- Result of `load_data`: the code signals failure by showing one error
message and returning an empty frame, which the caller treats as
terminal; `failure` carries that message. -/
inductive LoadResult where
  | failure (msg : String)
  | success (t : Frame)
deriving DecidableEq

/-- True exactly on the failure result. -/
def LoadResult.isFailure : LoadResult → Bool
  | .failure _ => true
  | .success _ => false

/-- True when a success result still contains a missing cell. -/
def LoadResult.hasMissing : LoadResult → Bool
  | .failure _ => false
  | .success t => t.cols.any (fun p => p.2.any (fun x => x.isNone))

/-- The frame of a success result, defaulting to the empty frame. -/
def LoadResult.tableD : LoadResult → Frame
  | .failure _ => ⟨0, []⟩
  | .success t => t

/-- The ETL function `load_data` of Dashboard.py lines 28-82: empty raw
data or a raised fetch yields a single error message; otherwise the
macro columns are renamed, `USD_EUR` is derived as the cellwise inverse
of `EUR_USD_Exchange` (a missing `EUR_USD_Exchange` column raises a
KeyError caught by the outer handler), the synthetic `CETES_28` series
is appended, and the whole frame is forward- then backward-filled. -/
def load_data (fetch : FetchResult) (g : RandState) : LoadResult :=
  match fetch with
  | .raised => .failure ("Error critico en ETL")
  | .table raw =>
    if raw.empty then
      .failure ("Error: Yahoo Finance no devolvio datos. Revisa tu conexion.")
    else
      let renamed : Frame := ⟨raw.nRows, raw.cols.map (fun p => (renameTicker p.1, p.2))⟩
      match renamed.cols.lookup ("EUR_USD_Exchange") with
      | none => .failure ("Error critico en ETL")
      | some eur =>
        let df1 := renamed.setCol ("USD_EUR") (invCol eur)
        let df2 := df1.setCol ("CETES_28") ((cetesSeries g raw.nRows).map some)
        .success (fillFrame df2)

/-- A concrete raw table with one date row in which the exchange-rate
column is entirely missing. -/
def ctRaw : Frame := ⟨1, [("AAPL", [some 1]), ("EURUSD=X", [none])]⟩

/-- Observable outcome of one script run: the user-visible error
messages, whether the downstream stages (windowing, KPIs, alerts,
insights) ran, and the table handed to them if so. -/
structure Outcome where
  messages : List String
  downstreamRan : Bool
  served : Option Frame
deriving DecidableEq

/-- The top-level control flow of Dashboard.py lines 86-90: run the ETL,
and if the resulting frame is empty (which is exactly the failure case),
stop via `st.stop()` before any downstream stage. -/
def runScript (fetch : FetchResult) (g : RandState) : Outcome :=
  match load_data fetch g with
  | .failure m => ⟨[m], false, none⟩
  | .success t => if t.empty then ⟨[], false, none⟩ else ⟨[], true, some t⟩

/-- Severity tag of an alert, in the order the rules are written
(Dashboard.py lines 119-126). -/
inductive AlertKind where
  | critico
  | alerta
  | aviso
deriving DecidableEq, Fintype

/-- An alert: its severity tag and the triggering value interpolated
into the rendered message. -/
structure Alert where
  kind : AlertKind
  value : ℚ
deriving DecidableEq

/-- The latest row of the windowed table, restricted to the three
columns the alert rules read. -/
structure Row where
  usd_mxn : ℚ
  treasury : ℚ
  usd_eur : ℚ
deriving DecidableEq

/-- The three sidebar thresholds (Dashboard.py lines 102-104). -/
structure Thresholds where
  limit_usd_mxn : ℚ
  limit_treasury : ℚ
  limit_usd_eur : ℚ
deriving DecidableEq

/-- The alert message of a given kind for a given latest row. -/
def alertOf (last : Row) : AlertKind → Alert
  | .critico => ⟨.critico, last.usd_mxn⟩
  | .alerta => ⟨.alerta, last.treasury⟩
  | .aviso => ⟨.aviso, last.usd_eur⟩

/-- Whether a rule's comparator holds: strict `>` against the two
ceilings, strict `<` against the floor. -/
def ruleFires (last : Row) (th : Thresholds) : AlertKind → Bool
  | .critico => decide (last.usd_mxn > th.limit_usd_mxn)
  | .alerta => decide (last.treasury > th.limit_treasury)
  | .aviso => decide (last.usd_eur < th.limit_usd_eur)

/-- The function `get_alerts` of Dashboard.py lines 115-128: three fixed
checks appending at most one alert each, in program order. -/
def get_alerts (last : Row) (th : Thresholds) : List Alert :=
  (if last.usd_mxn > th.limit_usd_mxn then [alertOf last .critico] else []) ++
  (if last.treasury > th.limit_treasury then [alertOf last .alerta] else []) ++
  (if last.usd_eur < th.limit_usd_eur then [alertOf last .aviso] else [])

/-- The windowing step `df.iloc[-n:]` of Dashboard.py line 99, with the
Python slice semantics: `-0` is `0`, so `n = 0` yields the whole list. -/
def ilocLast {α : Type} (t : List α) (n : Nat) : List α :=
  if n = 0 then t else t.drop (t.length - n)

/-- Modelled from the spec's words for comparison: the trailing `n` rows
of the table by position (all rows when `n` exceeds the length). -/
def specTrailingRows {α : Type} (t : List α) (n : Nat) : List α :=
  t.drop (t.length - n)

/-- Windowing applied to a whole frame. -/
def windowFrame (f : Frame) (n : Nat) : Frame :=
  ⟨if n = 0 then f.nRows else min n f.nRows,
   f.cols.map (fun p => (p.1, ilocLast p.2 n))⟩

/-- The base-100 renormalization `s / s.iloc[0] * 100` of Dashboard.py
line 257, over a window of present values. -/
def normIndex (w : List ℚ) : List ℚ := w.map (fun x => x / w.headD 0 * 100)

/-- Cellwise application of a binary float operation: the result is
present exactly when both operands are (NaN propagates). -/
def nanMap2 (f : ℚ → ℚ → ℚ) : Val → Val → Val
  | some a, some b => some (f a b)
  | _, _ => none

/-- Pandas `pct_change()` with its default pad fill: forward fill, then
cell `i` is `cur / prev - 1`; the first cell is always missing. -/
def pctChange (xs : Col) : Col :=
  match ffill xs with
  | [] => []
  | y :: ys =>
    none :: List.zipWith (fun prev cur => nanMap2 (fun p c => c / p - 1) prev cur) (y :: ys) ys

/-- The present values of a column, in order (pandas skips NaN when
aggregating). -/
def validVals (xs : Col) : List ℚ := xs.filterMap id

/-- Pandas `Series.std()` with its default `ddof = 1`, squared: the
sample variance of the present values, which needs at least two of them
and is NaN otherwise. -/
def sampleVar (xs : Col) : Option ℚ :=
  let v := validVals xs
  if v.length < 2 then none
  else
    let m := v.sum / v.length
    some ((v.map (fun x => (x - m) ^ 2)).sum / (v.length - 1))

/-- The per-column volatility `pct_change().std() * (252 ** 0.5) * 100`
of Dashboard.py line 225. -/
noncomputable def volatility (xs : Col) : Option ℝ :=
  (sampleVar (pctChange xs)).map (fun q => Real.sqrt q * Real.sqrt 252 * 100)

/-- Base-100 renormalization over a column of optional cells, matching
`col / col.iloc[0] * 100` with NaN propagation. -/
def normIndexO (c : Col) : Col :=
  c.map (fun x => nanMap2 (fun a v0 => a / v0 * 100) x (c.headD none))

/-- Pandas row-wise `mean(axis=1)`: the mean of the present cells, NaN
when none are present. -/
def npMean (vs : List Val) : Val :=
  let p := vs.filterMap id
  if p.isEmpty then none else some (p.sum / p.length)

/-- The rows of a list of columns, indexed positionally up to `n`. -/
def rowsOf (cols : List Col) (n : Nat) : List (List Val) :=
  (List.range n).map (fun i => cols.map (fun c => c.getD i none))

/-- Row-wise mean over a group of columns, as a new column of length `n`. -/
def rowMean (cols : List Col) (n : Nat) : Col := (rowsOf cols n).map npMean

/-- The insight computation of Dashboard.py lines 252-257: assigns the
equal-weight `Index_Tradicional` column and then the `Index_NVDA`
column into the windowed frame. -/
def addIndices (w : Frame) : Frame :=
  let chosenNorm := CHOSEN_FIVE.map (fun s => normIndexO (colOf w s))
  let w1 := w.setCol ("Index_Tradicional") (rowMean chosenNorm w.nRows)
  let w2 := w1.setCol ("Index_NVDA") (normIndexO (colOf w1 ("NVDA")))
  w2

/-- The insight stage seen from the script: it reads the cached full
table and the windowed slice, and produces a new frame; the pair records
the full table as the stage leaves it alongside the stage output. -/
def insightStage (df : Frame) (n : Nat) : Frame × Frame :=
  (df, addIndices (windowFrame df n))

/-- Positional indexing `xs.iloc[i]` with Python sign semantics; `none`
models the IndexError raised out of range. -/
def ilocIdx {α : Type} (xs : List α) (i : Int) : Option α :=
  if 0 ≤ i then xs[i.toNat]?
  else if (-i).toNat ≤ xs.length then xs[xs.length - (-i).toNat]? else none

/-- The KPI delta of `show_kpi` (Dashboard.py lines 148-162):
`current[key] - prev[key]` with `current = iloc[-1]` and
`prev = iloc[-2]`; the outer `none` models the IndexError when the
window has fewer than two rows, the inner cell is NaN-propagating. -/
def kpiDelta (xs : Col) : Option Val :=
  match ilocIdx xs (-1), ilocIdx xs (-2) with
  | some cur, some prev => some (nanMap2 (fun a b => a - b) cur prev)
  | _, _ => none

/-- The four metric columns shown as KPIs. -/
def kpiKeys : List String := ["USD_MXN", "USD_EUR", "CETES_28", "US_Treasury_10Y"]

/-- The KPI delta of one metric of a windowed frame. -/
def showKpiDelta (w : Frame) (key : String) : Option Val := kpiDelta (colOf w key)

/-- A concrete one-row windowed frame used to instantiate theorems. -/
def demoW : Frame := ⟨1, [("NVDA", [some 1])]⟩

end Dashboard

namespace Dashboard

theorem ffillAux_length (last : Val) (c : Col) :
    (ffillAux last c).length = c.length := by
  induction c generalizing last with
  | nil => rfl
  | cons a rest ih =>
    cases a <;> simp [ffillAux, ih]

theorem ffill_length (c : Col) : (ffill c).length = c.length := by
  simp [ffill, ffillAux_length]

theorem bfill_length (c : Col) : (bfill c).length = c.length := by
  simp [bfill, ffill_length]

theorem fillBoth_length (c : Col) : (fillBoth c).length = c.length := by
  simp [fillBoth, bfill_length, ffill_length]

theorem ffillAux_isSome (last : Val) (h : last.isSome) (c : Col) :
    ∀ x ∈ ffillAux last c, x.isSome := by
  induction c generalizing last with
  | nil => intro x hx; cases hx
  | cons a rest ih =>
    cases a with
    | some v =>
      intro x hx
      rcases List.mem_cons.mp hx with hx | hx
      · subst hx; rfl
      · exact ih (some v) rfl x hx
    | none =>
      intro x hx
      rcases List.mem_cons.mp hx with hx | hx
      · subst hx; exact h
      · exact ih last h x hx

theorem getLast?_cons_ne_nil {α : Type} (a : α) (l : List α) (h : l ≠ []) :
    (a :: l).getLast? = l.getLast? := by
  cases l with
  | nil => exact absurd rfl h
  | cons b t => exact List.getLast?_cons_cons

theorem ffillAux_ne_nil (last : Val) (b : Val) (tail : Col) :
    ffillAux last (b :: tail) ≠ [] := by
  intro h
  have := ffillAux_length last (b :: tail)
  rw [h] at this
  simp at this

theorem ffillAux_getLast (last : Val) (c : Col) (hne : c ≠ [])
    (h : last.isSome ∨ ∃ x ∈ c, x.isSome) :
    ∃ v : ℚ, (ffillAux last c).getLast? = some (some v) := by
  induction c generalizing last with
  | nil => exact absurd rfl hne
  | cons a rest ih =>
    cases a with
    | some v =>
      cases rest with
      | nil => exact ⟨v, rfl⟩
      | cons b tail =>
        have hrec := ih (some v) (by simp) (Or.inl rfl)
        rw [show ffillAux last (some v :: b :: tail)
              = some v :: ffillAux (some v) (b :: tail) from rfl,
          getLast?_cons_ne_nil _ _ (ffillAux_ne_nil _ _ _)]
        exact hrec
    | none =>
      cases rest with
      | nil =>
        rcases h with h | ⟨x, hx, hxs⟩
        · rcases Option.isSome_iff_exists.mp h with ⟨v, hv⟩
          exact ⟨v, by simp [ffillAux, hv]⟩
        · simp at hx; subst hx; simp at hxs
      | cons b tail =>
        have h2 : last.isSome ∨ ∃ x ∈ b :: tail, x.isSome := by
          rcases h with h | ⟨x, hx, hxs⟩
          · exact Or.inl h
          · rcases List.mem_cons.mp hx with hx | hx
            · subst hx; simp at hxs
            · exact Or.inr ⟨x, hx, hxs⟩
        have hrec := ih last (by simp) h2
        rw [show ffillAux last (none :: b :: tail)
              = last :: ffillAux last (b :: tail) from rfl,
          getLast?_cons_ne_nil _ _ (ffillAux_ne_nil _ _ _)]
        exact hrec

theorem fillBoth_all_some (c : Col) (h : ∃ x ∈ c, x.isSome) :
    ∀ x ∈ fillBoth c, x.isSome := by
  have hne : c ≠ [] := by
    rcases h with ⟨x, hx, _⟩
    intro hc; subst hc; cases hx
  obtain ⟨v, hv⟩ := ffillAux_getLast none c hne (Or.inr h)
  have hhead : (ffill c).reverse.head? = some (some v) := by
    rw [List.head?_reverse]; exact hv
  obtain ⟨t, ht⟩ : ∃ t, (ffill c).reverse = some v :: t := by
    cases hc : (ffill c).reverse with
    | nil => rw [hc] at hhead; cases hhead
    | cons a tail =>
      rw [hc] at hhead
      simp at hhead
      exact ⟨tail, by rw [hhead]⟩
  intro x hx
  have hx2 : x ∈ ffill (ffill c).reverse := by
    have : x ∈ (ffill (ffill c).reverse).reverse := hx
    simpa using this
  rw [ht] at hx2
  have hx3 : x ∈ some v :: ffillAux (some v) t := by
    simpa [ffill, ffillAux] using hx2
  rcases List.mem_cons.mp hx3 with hx3 | hx3
  · subst hx3; rfl
  · exact ffillAux_isSome (some v) rfl t x hx3

theorem ffillAux_all_none (c : Col) (h : ∀ x ∈ c, x = none) :
    ffillAux none c = c := by
  induction c with
  | nil => rfl
  | cons a rest ih =>
    have ha : a = none := h a (List.mem_cons_self a rest)
    subst ha
    show (none : Val) :: ffillAux none rest = none :: rest
    rw [ih (fun x hx => h x (List.mem_cons_of_mem _ hx))]

theorem fillBoth_all_none (c : Col) (h : ∀ x ∈ c, x = none) :
    fillBoth c = c := by
  have h1 : ffill c = c := ffillAux_all_none c h
  have h2 : ∀ x ∈ c.reverse, x = none := fun x hx => h x (List.mem_reverse.mp hx)
  have h3 : ffill c.reverse = c.reverse := ffillAux_all_none _ h2
  calc fillBoth c = (ffill c.reverse).reverse := by rw [fillBoth, bfill, h1]
    _ = c := by rw [h3, List.reverse_reverse]

theorem ffillAux_map (f : ℚ → ℚ) (last : Val) (c : Col) :
    ffillAux (Option.map f last) (c.map (Option.map f))
      = (ffillAux last c).map (Option.map f) := by
  induction c generalizing last with
  | nil => rfl
  | cons a rest ih =>
    cases a with
    | some v =>
      show some (f v) :: ffillAux (Option.map f (some v)) (rest.map (Option.map f))
          = some (f v) :: (ffillAux (some v) rest).map (Option.map f)
      rw [ih]
    | none =>
      show Option.map f last :: ffillAux (Option.map f last) (rest.map (Option.map f))
          = Option.map f last :: (ffillAux last rest).map (Option.map f)
      rw [ih]

theorem ffill_map (f : ℚ → ℚ) (c : Col) :
    ffill (c.map (Option.map f)) = (ffill c).map (Option.map f) :=
  ffillAux_map f none c

theorem bfill_map (f : ℚ → ℚ) (c : Col) :
    bfill (c.map (Option.map f)) = (bfill c).map (Option.map f) := by
  rw [bfill, bfill, ← List.map_reverse, ffill_map, List.map_reverse]

theorem fillBoth_map (f : ℚ → ℚ) (c : Col) :
    fillBoth (c.map (Option.map f)) = (fillBoth c).map (Option.map f) := by
  rw [fillBoth, fillBoth, ffill_map, bfill_map]

theorem fillBoth_invCol (c : Col) : fillBoth (invCol c) = invCol (fillBoth c) :=
  fillBoth_map (fun x => 1 / x) c

theorem lookup_setColList_self (l : List (String × Col)) (n : String) (c : Col) :
    (setColList l n c).lookup n = some c := by
  induction l with
  | nil => simp [setColList, List.lookup]
  | cons p rest ih =>
    obtain ⟨k, v⟩ := p
    by_cases hk : k = n
    · subst hk; simp [setColList, List.lookup]
    · have hb : (n == k) = false := beq_eq_false_iff_ne.mpr (Ne.symm hk)
      simp [setColList, hk, List.lookup, hb, ih]

theorem lookup_setColList_ne (l : List (String × Col)) (n k : String) (c : Col)
    (h : k ≠ n) : (setColList l n c).lookup k = l.lookup k := by
  induction l with
  | nil =>
    have hb : (k == n) = false := beq_eq_false_iff_ne.mpr h
    simp [setColList, List.lookup, hb]
  | cons p rest ih =>
    obtain ⟨k0, v⟩ := p
    by_cases hk : k0 = n
    · subst hk
      have hb : (k == k0) = false := beq_eq_false_iff_ne.mpr h
      simp [setColList, List.lookup, hb]
    · by_cases hkk : k = k0
      · subst hkk; simp [setColList, hk, List.lookup]
      · have hb : (k == k0) = false := beq_eq_false_iff_ne.mpr hkk
        simp [setColList, hk, List.lookup, hb, ih]

theorem setColList_not_mem (l : List (String × Col)) (n : String) (c : Col)
    (h : n ∉ l.map Prod.fst) : setColList l n c = l ++ [(n, c)] := by
  induction l with
  | nil => rfl
  | cons p rest ih =>
    obtain ⟨k, v⟩ := p
    have hk : k ≠ n := by
      intro he; exact h (by simp [he])
    have hr : n ∉ rest.map Prod.fst := fun hm => h (by simp [hm])
    simp [setColList, hk, ih hr]

theorem lookup_map_fill (l : List (String × Col)) (k : String) :
    (l.map (fun p => (p.1, fillBoth p.2))).lookup k = (l.lookup k).map fillBoth := by
  induction l with
  | nil => simp [List.lookup]
  | cons p rest ih =>
    obtain ⟨k0, v⟩ := p
    by_cases hk : k = k0
    · subst hk; simp [List.lookup]
    · have hb : (k == k0) = false := beq_eq_false_iff_ne.mpr hk
      simp [List.lookup, hb, ih]

/-- C2: for every latest row and threshold triple, `get_alerts` returns
exactly one alert per rule whose comparator holds (domestic FX strictly
above its ceiling, long rate strictly above its ceiling, foreign FX
strictly below its floor), in the fixed program order; the documented
concrete row yields exactly 3 alerts in that order, and when no
comparator holds the result is empty. -/
theorem get_alerts_spec :
    (∀ (last : Row) (th : Thresholds),
        get_alerts last th
          = ([AlertKind.critico, AlertKind.alerta, AlertKind.aviso].filter
              (fun k => ruleFires last th k)).map (alertOf last))
    ∧ get_alerts ⟨21, 5, 0.85⟩ ⟨20.5, 4.5, 0.90⟩
        = [⟨.critico, 21⟩, ⟨.alerta, 5⟩, ⟨.aviso, 0.85⟩]
    ∧ (∀ (last : Row) (th : Thresholds),
        (∀ k, ruleFires last th k = false) → get_alerts last th = []) := by
  refine ⟨?_, by norm_num [get_alerts, alertOf], ?_⟩
  · intro last th
    by_cases h1 : last.usd_mxn > th.limit_usd_mxn <;>
      by_cases h2 : last.treasury > th.limit_treasury <;>
        by_cases h3 : last.usd_eur < th.limit_usd_eur <;>
          simp [get_alerts, ruleFires, h1, h2, h3, List.filter]
  · intro last th hk
    have e1 := hk .critico
    have e2 := hk .alerta
    have e3 := hk .aviso
    simp only [ruleFires, decide_eq_false_iff_not] at e1 e2 e3
    simp [get_alerts, e1, e2, e3]

/-- Witness for C2: a row with all values inside the thresholds
satisfies the no-rule-fires hypothesis and gets the empty alert list. -/
theorem get_alerts_spec_witness :
    ruleFires ⟨20, 4, 0.95⟩ ⟨20.5, 4.5, 0.90⟩ .critico = false
    ∧ ruleFires ⟨20, 4, 0.95⟩ ⟨20.5, 4.5, 0.90⟩ .alerta = false
    ∧ ruleFires ⟨20, 4, 0.95⟩ ⟨20.5, 4.5, 0.90⟩ .aviso = false
    ∧ get_alerts ⟨20, 4, 0.95⟩ ⟨20.5, 4.5, 0.90⟩ = [] :=
  ⟨by norm_num [ruleFires, decide_eq_false_iff_not],
   by norm_num [ruleFires, decide_eq_false_iff_not],
   by norm_num [ruleFires, decide_eq_false_iff_not],
   get_alerts_spec.2.2 ⟨20, 4, 0.95⟩ ⟨20.5, 4.5, 0.90⟩
     (fun k => by cases k <;> norm_num [ruleFires, decide_eq_false_iff_not])⟩

/-- C5 counterexample: at `nDays = 0` the Python slice `iloc[-0:]`
returns the full table, not the trailing zero rows the claim's universal
quantification demands. -/
theorem ilocLast_zero_counterexample :
    ilocLast [(0 : ℚ)] 0 ≠ specTrailingRows [(0 : ℚ)] 0 := by decide

/-- C5 (amended): for every table and every `nDays ≥ 1`, windowing
returns the trailing `nDays` rows by position, and when `nDays` is at
least the row count it returns the full table unchanged. -/
theorem ilocLast_trailing (α : Type) (t : List α) (n : Nat) (h : 1 ≤ n) :
    ilocLast t n = specTrailingRows t n ∧ (t.length ≤ n → ilocLast t n = t) := by
  have hn : ¬n = 0 := by omega
  constructor
  · simp [ilocLast, specTrailingRows, hn]
  · intro hlen
    have hz : t.length - n = 0 := by omega
    simp [ilocLast, hn, hz]

/-- Witness for C5: a window larger than a three-row table returns the
table unchanged. -/
theorem ilocLast_trailing_witness :
    (1 : Nat) ≤ 5 ∧ ilocLast [(1 : ℚ), 2, 3] 5 = [(1 : ℚ), 2, 3] :=
  ⟨by decide, (ilocLast_trailing ℚ [1, 2, 3] 5 (by decide)).2 (by decide)⟩

/-- C10: for a windowed column with at least two rows the KPI delta is
the last-row value minus the second-to-last-row value by position; with
fewer than two rows the positional access fails; and each of the four
macro KPIs is exactly this delta of its column. -/
theorem show_kpi_delta_spec :
    (∀ (xs : Col) (a b : ℚ), 2 ≤ xs.length →
        xs[xs.length - 1]? = some (some a) → xs[xs.length - 2]? = some (some b) →
        kpiDelta xs = some (some (a - b)))
    ∧ (∀ xs : Col, xs.length < 2 → kpiDelta xs = none)
    ∧ (∀ (w : Frame) (key : String), key ∈ kpiKeys →
        showKpiDelta w key = kpiDelta (colOf w key)) := by
  refine ⟨?_, ?_, fun w key _ => rfl⟩
  · intro xs a b hlen ha hb
    have hneg1 : ¬((0 : Int) ≤ -1) := by norm_num
    have hneg2 : ¬((0 : Int) ≤ -2) := by norm_num
    have e1 : ilocIdx xs (-1) = some (some a) := by
      rw [ilocIdx, if_neg hneg1, if_pos (by simpa using (by omega : 1 ≤ xs.length))]
      simpa using ha
    have e2 : ilocIdx xs (-2) = some (some b) := by
      rw [ilocIdx, if_neg hneg2, if_pos (by simpa using hlen)]
      simpa using hb
    rw [kpiDelta, e1, e2]
    rfl
  · intro xs hlen
    have hneg2 : ¬((0 : Int) ≤ -2) := by norm_num
    have e2 : ilocIdx xs (-2) = none := by
      rw [ilocIdx, if_neg hneg2, if_neg (by simpa using (by omega : ¬2 ≤ xs.length))]
    cases h1 : ilocIdx xs (-1) <;> rw [kpiDelta, e2, h1]

/-- C1 counterexample: on a raw table whose exchange-rate column is
entirely missing, the ETL returns success (no DataUnavailable failure)
and the returned table still contains missing values; the all-missing
column comes back as all-missing. -/
theorem etl_all_missing_counterexample :
    (load_data (.table ctRaw) 0).isFailure = false
    ∧ (load_data (.table ctRaw) 0).hasMissing = true
    ∧ colOf ((load_data (.table ctRaw) 0).tableD) ("EUR_USD_Exchange") = [none] :=
  ⟨rfl, rfl, rfl⟩

/-- C1 (amended): whenever the ETL succeeds, every column of the output
is either entirely present or entirely missing after forward-fill then
backward-fill; in particular every column with at least one observed
value has zero missing values, but an all-missing column is returned
as-is rather than causing a failure. -/
theorem load_data_fill_dichotomy (fetch : FetchResult) (g : RandState) (t : Frame)
    (h : load_data fetch g = .success t) :
    t.cols.all
      (fun p => p.2.all (fun x => x.isNone) || p.2.all (fun x => x.isSome)) = true := by
  cases fetch with
  | raised => exact absurd h (by simp [load_data])
  | table raw =>
    rw [load_data] at h
    by_cases hemp : raw.empty
    · simp [hemp] at h
    · simp only [hemp, Bool.false_eq_true, if_false] at h
      cases hl : (Frame.mk raw.nRows (raw.cols.map (fun p => (renameTicker p.1, p.2)))).cols.lookup ("EUR_USD_Exchange") with
      | none => rw [hl] at h; cases h
      | some eur =>
        rw [hl] at h
        injection h with h
        subst h
        rw [List.all_eq_true]
        intro p hp
        rw [fillFrame] at hp
        simp only [List.mem_map] at hp
        obtain ⟨q, _, rfl⟩ := hp
        rw [Bool.or_eq_true]
        by_cases hs : ∃ x ∈ q.2, x.isSome
        · right
          rw [List.all_eq_true]
          intro x hx
          exact fillBoth_all_some q.2 hs x hx
        · left
          have hall : ∀ x ∈ q.2, x = none := by
            intro x hx
            cases hxv : x with
            | none => rfl
            | some v => exact absurd ⟨x, hx, by rw [hxv]; rfl⟩ hs
          rw [List.all_eq_true]
          intro x hx
          rw [fillBoth_all_none q.2 hall] at hx
          simp [hall x hx]

/-- Witness for C1: the amended dichotomy instantiated at a concrete
successful run. -/
theorem load_data_fill_dichotomy_witness :
    ((load_data (.table ctRaw) 0).tableD).cols.all
      (fun p => p.2.all (fun x => x.isNone) || p.2.all (fun x => x.isSome)) = true :=
  load_data_fill_dichotomy (.table ctRaw) 0 ((load_data (.table ctRaw) 0).tableD) rfl

/-- C3: in every successful ETL output, the derived inverse column
equals the cellwise reciprocal of the foreign-exchange column, both as
whole columns and row by row, and this survives the gap-filling because
filling commutes with the cellwise map. -/
theorem usd_eur_inverse (fetch : FetchResult) (g : RandState) (t : Frame)
    (h : load_data fetch g = .success t) :
    colOf t ("USD_EUR") = invCol (colOf t ("EUR_USD_Exchange"))
    ∧ ∀ i : Nat, (colOf t ("USD_EUR"))[i]?
        = ((colOf t ("EUR_USD_Exchange"))[i]?).map (Option.map (fun x => 1 / x)) := by
  cases fetch with
  | raised => exact absurd h (by simp [load_data])
  | table raw =>
    rw [load_data] at h
    by_cases hemp : raw.empty
    · simp [hemp] at h
    · simp only [hemp, Bool.false_eq_true, if_false] at h
      cases hl : (Frame.mk raw.nRows (raw.cols.map (fun p => (renameTicker p.1, p.2)))).cols.lookup ("EUR_USD_Exchange") with
      | none => rw [hl] at h; cases h
      | some eur =>
        rw [hl] at h
        injection h with h
        have hU : colOf t ("USD_EUR") = fillBoth (invCol eur) := by
          rw [← h]
          simp only [colOf, fillFrame, Frame.setCol]
          rw [lookup_map_fill, lookup_setColList_ne _ _ _ _ (by decide),
            lookup_setColList_self]
          rfl
        have hE : colOf t ("EUR_USD_Exchange") = fillBoth eur := by
          rw [← h]
          simp only [colOf, fillFrame, Frame.setCol]
          rw [lookup_map_fill, lookup_setColList_ne _ _ _ _ (by decide),
            lookup_setColList_ne _ _ _ _ (by decide), hl]
          rfl
        constructor
        · rw [hU, hE, fillBoth_invCol]
        · intro i
          rw [hU, hE, fillBoth_invCol, invCol]
          simp [List.getElem?_map]

/-- Witness for C3: the reciprocal identity instantiated at a concrete
successful run. -/
theorem usd_eur_inverse_witness :
    colOf ((load_data (.table ctRaw) 0).tableD) ("USD_EUR")
      = invCol (colOf ((load_data (.table ctRaw) 0).tableD) ("EUR_USD_Exchange")) :=
  (usd_eur_inverse (.table ctRaw) 0 ((load_data (.table ctRaw) 0).tableD) rfl).1

/-- C4: the synthetic CETES series is a pure function of the date-index
length: it is independent of the incoming global generator state (the
code reseeds with the fixed seed 42 first), it equals the linear ramp
from 10.5 to 11.25 plus the seeded pseudo-random noise of standard
deviation 0.05, and consequently the whole ETL result is independent of
the incoming generator state. -/
theorem cetes_deterministic (g g2 : RandState) (len : Nat) :
    cetesSeries g len = cetesSeries g2 len
    ∧ cetesSeries g len
        = List.zipWith (fun t e => t + e) (linspace 10.5 11.25 len)
            (gaussList 0.05 len (npSeed 42)).1
    ∧ ∀ fetch, load_data fetch g = load_data fetch g2 := by
  refine ⟨rfl, rfl, ?_⟩
  intro fetch
  cases fetch with
  | raised => rfl
  | table raw => rfl

/-- C6: for a nonempty window whose first value is nonzero, the
normalized index starts at exactly 100, each entry is the series value
divided by the window's first value times 100, and the base point is
the current window's first row, so windows of different lengths over
the same series yield different index values at the same final row. -/
theorem norm_index_spec (w : List ℚ) (h : w ≠ []) (h0 : w.head h ≠ 0) :
    (normIndex w).head? = some 100
    ∧ (∀ k : Nat, (normIndex w)[k]? = (w[k]?).map (fun x => x / w.head h * 100))
    ∧ (normIndex (ilocLast [1, 2] 2)).getLast? = some 200
    ∧ (normIndex (ilocLast [1, 2] 1)).getLast? = some 100 := by
  refine ⟨?_, ?_, ?_, ?_⟩
  · cases w with
    | nil => exact absurd rfl h
    | cons a tl =>
      have ha : a ≠ 0 := by simpa using h0
      simp only [normIndex, List.headD_cons, List.map_cons, List.head?_cons]
      rw [div_self ha, one_mul]
  · intro k
    cases w with
    | nil => exact absurd rfl h
    | cons a tl =>
      simp only [normIndex, List.headD_cons, List.head_cons, List.getElem?_map]
  · norm_num [normIndex, ilocLast]
  · norm_num [normIndex, ilocLast]

/-- Witness for C6: a concrete two-row window with nonzero first value
has index base exactly 100. -/
theorem norm_index_spec_witness :
    (normIndex [2, 3]).head? = some 100 :=
  (norm_index_spec [2, 3] (by simp) (by norm_num)).1

/-- C7 counterexample: a two-row window with both rows present and
different still yields an undefined (NaN) volatility, because the
percentage-change series has a single observation and the sample
standard deviation uses one delta degree of freedom. -/
theorem volatility_len2_counterexample :
    volatility [some 1, some 2] = none := rfl

/-- C7 (amended): the annualized volatility of a window of length at
most 2 is undefined (NaN) without raising, for length 1 and length 2
alike; it is defined for a window of three present rows with nonzero
leading values, so definedness requires at least two percentage-change
observations, not two rows. -/
theorem volatility_nan_spec :
    (∀ xs : Col, xs.length ≤ 2 → volatility xs = none)
    ∧ (∀ a b c : ℚ, a ≠ 0 → b ≠ 0 → volatility [some a, some b, some c] ≠ none) := by
  constructor
  · intro xs hlen
    rcases xs with _ | ⟨a, _ | ⟨b, _ | ⟨c, tl⟩⟩⟩
    · rfl
    · cases a <;> rfl
    · cases a <;> cases b <;> rfl
    · simp only [List.length_cons] at hlen; omega
  · intro a b c _ _
    simp [volatility, pctChange, ffill, ffillAux, nanMap2, sampleVar, validVals]

/-- Witness for C7: a one-row window gives NaN volatility and a concrete
three-row window gives a defined volatility. -/
theorem volatility_nan_witness :
    volatility [some (1 : ℚ)] = none
    ∧ volatility [some (1 : ℚ), some 2, some 4] ≠ none :=
  ⟨volatility_nan_spec.1 [some 1] (by decide),
   volatility_nan_spec.2 1 2 4 (by norm_num) (by norm_num)⟩

/-- C9: the insight computation appends exactly the two new index
columns at the end of the windowed frame, preserves the name and the
values of every pre-existing column and the row count, and leaves the
cached full-history table untouched. -/
theorem addIndices_frame (w : Frame)
    (h1 : ("Index_Tradicional") ∉ w.cols.map Prod.fst)
    (h2 : ("Index_NVDA") ∉ w.cols.map Prod.fst) :
    (addIndices w).cols.map Prod.fst
        = w.cols.map Prod.fst ++ [("Index_Tradicional"), ("Index_NVDA")]
    ∧ (∀ k : String, k ≠ ("Index_Tradicional") → k ≠ ("Index_NVDA") →
        (addIndices w).cols.lookup k = w.cols.lookup k)
    ∧ (addIndices w).nRows = w.nRows
    ∧ (∀ (df : Frame) (n : Nat), (insightStage df n).1 = df) := by
  refine ⟨?_, ?_, rfl, fun df n => rfl⟩
  · simp only [addIndices, Frame.setCol]
    rw [setColList_not_mem _ _ _ h1]
    rw [setColList_not_mem _ _ _ (by
      simp only [List.map_append]
      intro hmem
      rcases List.mem_append.mp hmem with hm | hm
      · exact h2 hm
      · simp at hm)]
    simp
  · intro k hk1 hk2
    simp only [addIndices, Frame.setCol]
    rw [lookup_setColList_ne _ _ _ _ hk2, lookup_setColList_ne _ _ _ _ hk1]

/-- Witness for C9: the frame conditions instantiated on a concrete
one-column windowed frame. -/
theorem addIndices_frame_witness :
    (addIndices demoW).cols.map Prod.fst
        = demoW.cols.map Prod.fst ++ [("Index_Tradicional"), ("Index_NVDA")]
    ∧ (addIndices demoW).cols.lookup ("NVDA") = demoW.cols.lookup ("NVDA")
    ∧ (addIndices demoW).nRows = demoW.nRows :=
  ⟨(addIndices_frame demoW (by decide) (by decide)).1,
   (addIndices_frame demoW (by decide) (by decide)).2.1 ("NVDA") (by decide) (by decide),
   (addIndices_frame demoW (by decide) (by decide)).2.2.1⟩

/-- Witness for C10: a two-row window gets the positional last-minus-
previous delta, and a one-row window fails the positional access. -/
theorem show_kpi_delta_witness :
    kpiDelta [some (3 : ℚ), some 5] = some (some (5 - 3))
    ∧ kpiDelta [some (7 : ℚ)] = none :=
  ⟨show_kpi_delta_spec.1 [some 3, some 5] 5 3 (by decide) rfl rfl,
   show_kpi_delta_spec.2.1 [some 7] (by decide)⟩

/-- C8: when the raw fetch raises or returns an empty table, the run
produces exactly one user-visible message, no downstream stage runs,
and no table is handed to any consumer. -/
theorem runScript_failfast (fetch : FetchResult) (g : RandState)
    (h : fetch = .raised ∨ ∃ raw, fetch = .table raw ∧ raw.empty = true) :
    (runScript fetch g).messages.length = 1
    ∧ (runScript fetch g).downstreamRan = false
    ∧ (runScript fetch g).served = none := by
  rcases h with h | ⟨raw, h, hemp⟩
  · subst h; exact ⟨rfl, rfl, rfl⟩
  · subst h
    simp [runScript, load_data, hemp]

/-- Witness for C8: the raised-fetch case at a concrete generator
state. -/
theorem runScript_failfast_witness :
    FetchResult.raised = FetchResult.raised
    ∧ (runScript .raised 0).messages.length = 1
    ∧ (runScript .raised 0).downstreamRan = false
    ∧ (runScript .raised 0).served = none :=
  ⟨rfl, runScript_failfast .raised 0 (Or.inl rfl)⟩

end Dashboard
